import Mathlib

/-!
Verification of the Saga orchestration library (src/src/index.ts).

The source is a single class Saga with a list of transactions, each
holding a forward action (execute) and an undo action (compensate), both
of type T to Promise of T and both able to raise an Error.  The shallow
embedding below models an asynchronous fallible action as a total
function into Except E, and models each method of the class in
state-passing style: a method takes the receiver object and returns the
receiver as it stands when the method returns (the source never assigns
to the field inside execute or startCompensate, and addTransaction pushes
one element, so the translation threads the receiver through unchanged
except for the push).  To let theorems speak about which actions were
invoked, in which order, and with which input state, the embedding of
execute also returns a log: the list of forward invocations and the list
of compensate invocations, each as a pair of the index of the step and
the state value passed to it, in call order, together with the value of
the local variable args at return time.
-/

namespace SagaTx

/-- Embedding of the interface ITransaction of the source: a name, a
forward action and a compensating action, both fallible with error
type E. -/
structure ITransaction (T E : Type) where
  name : String
  execute : T → Except E T
  compensate : T → Except E T

/-- Embedding of the class Saga of the source: its single field, the
private list of registered transactions. -/
structure Saga (T E : Type) where
  _transactions : List (ITransaction T E)

/-- Embedding of the static constructor Saga.new of the source: an
orchestrator with an empty transaction list. -/
def Saga.new {T E : Type} : Saga T E := ⟨[]⟩

/-- Embedding of the method addTransaction of the source: it pushes the
transaction at the end of the field and returns the receiver, so the
state-passing translation returns the saga whose list has the new
element appended. -/
def Saga.addTransaction {T E : Type} (s : Saga T E) (t : ITransaction T E) : Saga T E :=
  ⟨s._transactions ++ [t]⟩

/-- The observable outcome of one run of the method execute of the
source: the returned Result (ok with no payload, or err with the error),
the forward invocations as pairs of index and input state in call order,
the compensate invocations likewise, and the value held by the local
variable args when the method returns. -/
structure RunLog (T E : Type) where
  result : Except E Unit
  fwdCalls : List (Nat × T)
  compCalls : List (Nat × T)
  finalArgs : T

/-- Embedding of the for loop of the private method startCompensate of
the source: for i from idx - 1 down to 0, call compensate of the step at
index i inside a try block; on success the local args takes the returned
value, on a caught error args is left unchanged and the loop continues.
An out-of-range index (none branch) would raise before any compensate
call and be caught by the same try, leaving args unchanged; it cannot
occur in runs started by execute.  Returns the receiver (never written
to), the final args, and the compensate invocations as index and input
pairs in call order. -/
def compensateLoop {T E : Type} (s : Saga T E) : Nat → T → Saga T E × T × List (Nat × T)
  | 0, args => (s, args, [])
  | i + 1, args =>
    match s._transactions[i]? with
    | none => compensateLoop s i args
    | some tx =>
      match tx.compensate args with
      | Except.ok a =>
        let r := compensateLoop s i a
        (r.1, r.2.1, (i, args) :: r.2.2)
      | Except.error _ =>
        let r := compensateLoop s i args
        (r.1, r.2.1, (i, args) :: r.2.2)

/-- Embedding of the private method startCompensate of the source: run
the compensation loop from idx - 1 down to 0, then return err with the
error captured from the failed forward action.  Components: the receiver
as the method leaves it, the returned Result, the final args of the
loop, and the trace of compensate invocations. -/
def Saga._startCompensate {T E : Type} (s : Saga T E) (idx : Nat) (args : T) (error : E) :
    Saga T E × Except E Unit × T × List (Nat × T) :=
  let r := compensateLoop s idx args
  (r.1, Except.error error, r.2.1, r.2.2)

/-- Embedding of the for loop of the method execute of the source,
threading the receiver.  The first list argument is the remainder of the
transaction list still to run; callers maintain that it equals the drop
of i from the field of the receiver, mirroring the loop that reads the
field at index i while i counts up from 0.  Each forward invocation is
recorded with its index and input state; on the first forward error the
method delegates to startCompensate and returns its err result. -/
def executeAux {T E : Type} (s : Saga T E) :
    List (ITransaction T E) → Nat → T → Saga T E × RunLog T E
  | [], _, args => (s, ⟨Except.ok (), [], [], args⟩)
  | tx :: rest, i, args =>
    match tx.execute args with
    | Except.ok a =>
      let r := executeAux s rest (i + 1) a
      (r.1, ⟨r.2.result, (i, args) :: r.2.fwdCalls, r.2.compCalls, r.2.finalArgs⟩)
    | Except.error e =>
      let r := s._startCompensate i args e
      (r.1, ⟨r.2.1, [(i, args)], r.2.2.2, r.2.2.1⟩)

/-- Embedding of the method execute of the source: run the forward loop
over the whole transaction list starting at index 0 with the initial
argument.  Returns the receiver as the method leaves it and the run
log. -/
def Saga.execute {T E : Type} (s : Saga T E) (args : T) : Saga T E × RunLog T E :=
  executeAux s s._transactions 0 args

/-- The position of the first forward action to fail when the state is
threaded from args through the forward actions in order: none when every
forward action succeeds, otherwise the index of the first failing
action, the state value passed to it, and the error it raises.  Defined
from the forward actions alone, independently of the orchestration
code. -/
def firstFailure {T E : Type} : List (ITransaction T E) → T → Option (Nat × T × E)
  | [], _ => none
  | tx :: rest, args =>
    match tx.execute args with
    | Except.ok a => (firstFailure rest a).map (fun p => (p.1 + 1, p.2))
    | Except.error e => some (0, args, e)

/-- The left fold of the forward actions over the initial state in
registration order, in the Except monad: the specification notion of the
final threaded state of an all-successful forward pass. -/
def foldFwd {T E : Type} (txs : List (ITransaction T E)) (args : T) : Except E T :=
  txs.foldl (fun acc tx => acc.bind tx.execute) (Except.ok args)

/-! Concrete steps for witnesses and the concrete scenario of the
specification. -/

/-- Step A of the concrete scenario: forward adds one, compensate
subtracts one. -/
def stepA : ITransaction Nat String :=
  ⟨"A", fun x => Except.ok (x + 1), fun x => Except.ok (x - 1)⟩

/-- Step B of the concrete scenario: forward doubles, compensate
halves. -/
def stepB : ITransaction Nat String :=
  ⟨"B", fun x => Except.ok (x * 2), fun x => Except.ok (x / 2)⟩

/-- Step C of the concrete scenario: forward always fails with error E;
its compensate is the identity (never invoked in the scenario). -/
def stepC : ITransaction Nat String :=
  ⟨"C", fun _ => Except.error "E", fun x => Except.ok x⟩

/-- A step whose compensate always fails, to exercise the swallowing of
compensation errors. -/
def stepD : ITransaction Nat String :=
  ⟨"D", fun x => Except.ok x, fun _ => Except.error "CE"⟩

/-- The saga of the concrete scenario: A then B then C. -/
def sagaABC : Saga Nat String :=
  ((Saga.new.addTransaction stepA).addTransaction stepB).addTransaction stepC

/-- A saga whose forward pass always succeeds: A then B. -/
def sagaAB : Saga Nat String :=
  (Saga.new.addTransaction stepA).addTransaction stepB

/-- A saga whose first step fails at once. -/
def sagaConly : Saga Nat String :=
  Saga.new.addTransaction stepC

/-- A saga ending in a step whose compensate fails. -/
def sagaAD : Saga Nat String :=
  (Saga.new.addTransaction stepA).addTransaction stepD

/-- C6: executing an orchestrator with zero registered steps returns a
success result at once, with no forward and no compensate calls made,
for every initial state. -/
theorem execute_empty_saga {T E : Type} (args : T) :
    ((Saga.new : Saga T E).execute args).2 = ⟨Except.ok (), [], [], args⟩ :=
  rfl

/-- C7: on the concrete saga A, B, C with initial state 3, execute runs
A on 3, B on 4, fails at C on 8 with error E, compensates B on 8 and
then A on the resulting 4, leaves the local state at 3, and returns err
E. -/
theorem execute_concrete_scenario :
    (sagaABC.execute 3).2 =
      ⟨Except.error "E", [(0, 3), (1, 4), (2, 8)], [(1, 8), (0, 4)], 3⟩ :=
  rfl

/-- C8: addTransaction appends the step at the end of the internal
sequence, leaving all previously registered steps and their order
unchanged, and chaining the append over a list of steps builds the
sequence in call order. -/
theorem addTransaction_appends {T E : Type} (s : Saga T E) (t : ITransaction T E) :
    (s.addTransaction t)._transactions = s._transactions ++ [t] ∧
    ∀ ts : List (ITransaction T E),
      (ts.foldl Saga.addTransaction s)._transactions = s._transactions ++ ts := by
  refine ⟨rfl, ?_⟩
  intro ts
  induction ts generalizing s with
  | nil => simp
  | cons t2 ts ih =>
    simp [List.foldl_cons, ih, Saga.addTransaction]

/-! Helper lemmas shared by the claim theorems. -/

/-- The compensation loop never writes the receiver: its saga component
is the saga it was given. -/
theorem compensateLoop_fst {T E : Type} (s : Saga T E) :
    ∀ (idx : Nat) (args : T), (compensateLoop s idx args).1 = s := by
  intro idx
  induction idx with
  | zero => intro args; rfl
  | succ i ih =>
    intro args
    cases h : s._transactions[i]? with
    | none => simp [compensateLoop, h, ih args]
    | some tx =>
      cases h2 : tx.compensate args with
      | ok a => simp [compensateLoop, h, h2, ih a]
      | error e => simp [compensateLoop, h, h2, ih args]

/-- The forward loop never writes the receiver: its saga component is
the saga it was given. -/
theorem executeAux_fst {T E : Type} (s : Saga T E) :
    ∀ (rest : List (ITransaction T E)) (i : Nat) (args : T),
      (executeAux s rest i args).1 = s := by
  intro rest
  induction rest with
  | nil => intro i args; rfl
  | cons tx rest ih =>
    intro i args
    cases h : tx.execute args with
    | ok a => simp [executeAux, h, ih (i + 1) a]
    | error e => simp [executeAux, h, Saga._startCompensate, compensateLoop_fst s i args]

/-- The index of the first failing forward action is a valid index of
the list. -/
theorem firstFailure_lt_length {T E : Type} :
    ∀ (l : List (ITransaction T E)) (args : T) (k : Nat) (stt : T) (e : E),
      firstFailure l args = some (k, stt, e) → k < l.length := by
  intro l
  induction l with
  | nil => intro args k stt e h; simp [firstFailure] at h
  | cons tx rest ih =>
    intro args k stt e h
    simp only [firstFailure] at h
    cases hx : tx.execute args with
    | ok a =>
      rw [hx] at h
      rcases Option.map_eq_some'.mp h with ⟨p, hp, hpe⟩
      obtain ⟨k2, stt2, e2⟩ := p
      obtain ⟨hk, hstt, he⟩ : k2 + 1 = k ∧ stt2 = stt ∧ e2 = e := by
        simpa using hpe
      subst hk; subst hstt; subst he
      exact Nat.succ_lt_succ (ih a k2 stt2 e2 hp)
    | error e2 =>
      rw [hx] at h
      obtain ⟨hk, _, _⟩ : (0 : Nat) = k ∧ args = stt ∧ e2 = e := by simpa using h
      subst hk
      simp

/-- When idx is within range, the compensation loop starting at idx
records invocations at exactly the indices idx - 1 down to 0, in that
order. -/
theorem compensateLoop_indices {T E : Type} (s : Saga T E) :
    ∀ (idx : Nat) (args : T), idx ≤ s._transactions.length →
      ((compensateLoop s idx args).2.2).map Prod.fst = (List.range idx).reverse := by
  intro idx
  induction idx with
  | zero => intro args _; rfl
  | succ i ih =>
    intro args hle
    have hi : i < s._transactions.length := Nat.lt_of_lt_of_le (Nat.lt_succ_self i) hle
    have hsome : s._transactions[i]? = some s._transactions[i] :=
      List.getElem?_eq_getElem hi
    simp only [compensateLoop, hsome]
    cases hc : s._transactions[i].compensate args with
    | ok a => simp [ih a (Nat.le_of_lt hi), List.range_succ]
    | error e => simp [ih args (Nat.le_of_lt hi), List.range_succ]

/-- Spine of the failure claims: when the forward pass over the
remaining list, starting at absolute index i, meets its first failure k
steps in, the loop returns the error of that failing forward action,
the forward invocations are exactly the indices i up to i + k in
ascending order, and the compensate invocations are exactly the indices
i + k - 1 down to 0 in descending order. -/
theorem executeAux_fail {T E : Type} (s : Saga T E) :
    ∀ (rest : List (ITransaction T E)) (i : Nat) (args : T) (k : Nat) (stt : T) (e : E),
      firstFailure rest args = some (k, stt, e) →
      rest = s._transactions.drop i →
      (executeAux s rest i args).2.result = Except.error e ∧
      ((executeAux s rest i args).2.fwdCalls).map Prod.fst = List.range' i (k + 1) ∧
      ((executeAux s rest i args).2.compCalls).map Prod.fst = (List.range (i + k)).reverse := by
  intro rest
  induction rest with
  | nil => intro i args k stt e h _; simp [firstFailure] at h
  | cons tx rest ih =>
    intro i args k stt e h hdrop
    have hi : i < s._transactions.length := by
      by_contra hle
      push_neg at hle
      rw [List.drop_eq_nil_of_le hle] at hdrop
      cases hdrop
    cases hx : tx.execute args with
    | error e0 =>
      simp only [firstFailure, hx] at h
      obtain ⟨hk, hstt, he⟩ : (0 : Nat) = k ∧ args = stt ∧ e0 = e := by simpa using h
      subst hk; subst hstt; subst he
      refine ⟨?_, ?_, ?_⟩
      · simp [executeAux, hx, Saga._startCompensate]
      · simp [executeAux, hx, Saga._startCompensate, List.range']
      · simpa [executeAux, hx, Saga._startCompensate]
          using compensateLoop_indices s i args (Nat.le_of_lt hi)
    | ok a =>
      simp only [firstFailure, hx] at h
      rcases Option.map_eq_some'.mp h with ⟨p, hp, hpe⟩
      obtain ⟨k2, stt2, e2⟩ := p
      obtain ⟨hk, hstt, he⟩ : k2 + 1 = k ∧ stt2 = stt ∧ e2 = e := by simpa using hpe
      subst hk; subst hstt; subst he
      have hdrop2 : rest = s._transactions.drop (i + 1) := by
        have h2 : (s._transactions.drop i).tail = s._transactions.drop (i + 1) :=
          List.tail_drop s._transactions i
        rw [← hdrop] at h2
        simpa using h2
      obtain ⟨ihr, ihf, ihc⟩ := ih (i + 1) a k2 stt2 e2 hp hdrop2
      refine ⟨?_, ?_, ?_⟩
      · simpa [executeAux, hx] using ihr
      · have : List.range' i (k2 + 1 + 1) = i :: List.range' (i + 1) (k2 + 1) := rfl
        simpa [executeAux, hx, this] using ihf
      · have harith : i + (k2 + 1) = i + 1 + k2 := by omega
        rw [harith]
        simpa [executeAux, hx] using ihc

/-- Spine of the success claims: when the forward pass over the
remaining list meets no failure, the loop returns ok, makes no
compensate call, and its final local state is the left fold of the
remaining forward actions. -/
theorem executeAux_ok {T E : Type} (s : Saga T E) :
    ∀ (rest : List (ITransaction T E)) (i : Nat) (args : T),
      firstFailure rest args = none →
      (executeAux s rest i args).2.result = Except.ok () ∧
      foldFwd rest args = Except.ok ((executeAux s rest i args).2.finalArgs) ∧
      (executeAux s rest i args).2.compCalls = [] := by
  intro rest
  induction rest with
  | nil => intro i args _; exact ⟨rfl, rfl, rfl⟩
  | cons tx rest ih =>
    intro i args h
    simp only [firstFailure] at h
    cases hx : tx.execute args with
    | error e => rw [hx] at h; cases h
    | ok a =>
      rw [hx] at h
      have h2 : firstFailure rest a = none := Option.map_eq_none'.mp h
      obtain ⟨ihr, ihf, ihc⟩ := ih (i + 1) a h2
      refine ⟨?_, ?_, ?_⟩
      · simpa [executeAux, hx] using ihr
      · have hfold : foldFwd (tx :: rest) args = foldFwd rest a := by
          simp [foldFwd, List.foldl_cons, Except.bind, hx]
        rw [hfold]
        simpa [executeAux, hx] using ihf
      · simpa [executeAux, hx] using ihc

/-! Claim theorems. -/

/-- C1: when the forward action at index k is the first to fail, execute
returns an error result whose error value is the error raised by that
forward action, whatever the compensation calls do; no compensation
error reaches the caller. -/
theorem execute_returns_first_forward_error {T E : Type} (s : Saga T E) (args : T)
    (k : Nat) (stt : T) (e : E)
    (h : firstFailure s._transactions args = some (k, stt, e)) :
    ((s.execute args).2).result = Except.error e := by
  have h3 := executeAux_fail s s._transactions 0 args k stt e h (List.drop_zero _).symm
  exact h3.1

/-- Witness for C1 on the concrete scenario saga at initial state 3. -/
theorem execute_returns_first_forward_error_w :
    ((sagaABC.execute 3).2).result = Except.error "E" :=
  execute_returns_first_forward_error sagaABC 3 2 8 "E" rfl

/-- C2: when the forward action at index k is the first to fail, the
forward invocations are exactly the indices 0 up to k in registration
order and the compensate invocations are exactly the indices k - 1 down
to 0 in descending order. -/
theorem execute_call_indices {T E : Type} (s : Saga T E) (args : T)
    (k : Nat) (stt : T) (e : E)
    (h : firstFailure s._transactions args = some (k, stt, e)) :
    ((s.execute args).2.fwdCalls).map Prod.fst = List.range (k + 1) ∧
    ((s.execute args).2.compCalls).map Prod.fst = (List.range k).reverse := by
  have h3 := executeAux_fail s s._transactions 0 args k stt e h (List.drop_zero _).symm
  refine ⟨?_, ?_⟩
  · rw [List.range_eq_range']
    exact h3.2.1
  · simpa using h3.2.2

/-- Witness for C2 on the concrete scenario saga at initial state 3. -/
theorem execute_call_indices_w :
    ((sagaABC.execute 3).2.fwdCalls).map Prod.fst = List.range 3 ∧
    ((sagaABC.execute 3).2.compCalls).map Prod.fst = (List.range 2).reverse :=
  execute_call_indices sagaABC 3 2 8 "E" rfl

/-- C3: when every forward action succeeds along the threaded states,
execute returns a success result carrying no payload and the final
threaded state is the left fold of the forward actions over the initial
state in registration order. -/
theorem execute_all_success {T E : Type} (s : Saga T E) (args : T)
    (h : firstFailure s._transactions args = none) :
    ((s.execute args).2).result = Except.ok () ∧
    foldFwd s._transactions args = Except.ok ((s.execute args).2.finalArgs) := by
  have h3 := executeAux_ok s s._transactions 0 args h
  exact ⟨h3.1, h3.2.1⟩

/-- Witness for C3 on the all-successful saga A, B at initial state 3. -/
theorem execute_all_success_w :
    ((sagaAB.execute 3).2).result = Except.ok () ∧
    foldFwd sagaAB._transactions 3 = Except.ok ((sagaAB.execute 3).2.finalArgs) :=
  execute_all_success sagaAB 3 rfl

/-- C4: when the compensate call at index j fails, the error is
swallowed, the pass goes on through the indices below j, and the failing
call does not update the threaded state: the remainder of the pass is
exactly the pass from j with the same state, and the failing call is
recorded with its input state. -/
theorem compensate_failure_swallowed {T E : Type} (s : Saga T E) (j : Nat) (stt : T)
    (tx : ITransaction T E) (e : E)
    (hj : s._transactions[j]? = some tx)
    (hf : tx.compensate stt = Except.error e) :
    compensateLoop s (j + 1) stt =
      ((compensateLoop s j stt).1, (compensateLoop s j stt).2.1,
        (j, stt) :: (compensateLoop s j stt).2.2) := by
  simp only [compensateLoop, hj, hf]

/-- Witness for C4 on the saga A, D where the compensate of D fails. -/
theorem compensate_failure_swallowed_w :
    compensateLoop sagaAD 2 5 =
      ((compensateLoop sagaAD 1 5).1, (compensateLoop sagaAD 1 5).2.1,
        (1, 5) :: (compensateLoop sagaAD 1 5).2.2) :=
  compensate_failure_swallowed sagaAD 1 5 stepD "CE" rfl rfl

/-- C5: when the forward action of the step at index 0 fails, no
compensate call is made at all and execute returns an error result
carrying that error. -/
theorem execute_first_step_failure {T E : Type} (s : Saga T E) (args : T)
    (stt : T) (e : E)
    (h : firstFailure s._transactions args = some (0, stt, e)) :
    ((s.execute args).2).compCalls = [] ∧
    ((s.execute args).2).result = Except.error e := by
  have h3 := executeAux_fail s s._transactions 0 args 0 stt e h (List.drop_zero _).symm
  have hc : ((s.execute args).2.compCalls).map Prod.fst = [] := by
    simpa using h3.2.2
  exact ⟨List.map_eq_nil_iff.mp hc, h3.1⟩

/-- Witness for C5 on the saga whose only step fails at once. -/
theorem execute_first_step_failure_w :
    ((sagaConly.execute 3).2).compCalls = [] ∧
    ((sagaConly.execute 3).2).result = Except.error "E" :=
  execute_first_step_failure sagaConly 3 3 "E" rfl

/-- C9: execute never modifies the step list: its receiver leaves the
call with the same transactions, and a later run of the same saga with
any initial state produces the same outcome as a run of the original
saga. -/
theorem execute_preserves_transactions {T E : Type} (s : Saga T E) (a : T) :
    ((s.execute a).1)._transactions = s._transactions ∧
    ∀ b : T, (((s.execute a).1).execute b).2 = (s.execute b).2 := by
  have hfst : (s.execute a).1 = s := executeAux_fst s s._transactions 0 a
  exact ⟨by rw [hfst], fun b => by rw [hfst]⟩

/-- C10: execute is total at the public interface: it always returns a
Result, either ok with no payload, or err carrying precisely the error
of the first failing forward action; it never surfaces anything else,
in particular no compensation error. -/
theorem execute_total {T E : Type} (s : Saga T E) (args : T) :
    ((s.execute args).2).result = Except.ok () ∨
    ∃ (k : Nat) (stt : T) (e : E),
      firstFailure s._transactions args = some (k, stt, e) ∧
      ((s.execute args).2).result = Except.error e := by
  cases h : firstFailure s._transactions args with
  | none => exact Or.inl (executeAux_ok s s._transactions 0 args h).1
  | some p =>
    obtain ⟨k, stt, e⟩ := p
    exact Or.inr ⟨k, stt, e, rfl,
      (executeAux_fail s s._transactions 0 args k stt e h (List.drop_zero _).symm).1⟩

end SagaTx
